import Mathlib

/-!
Verification of the streaming tool-orchestration engine of the multi_RAG_agent
repository against its specification.

Part A embeds the search-result review tool
(`src/ocr_rag/backend/tools/search_review_tool.py`): tokenisation, relevance
(Jaccard) scoring, recency scoring, and the recommendation selection of
`review_search_results`.

Part B embeds the orchestration loop of `src/ocr_rag/backend/main.py`
(`generate_streaming_response_with_tools`, `execute_tool_calls`,
`get_chat_model_with_tools`): the bounded tool-calling rounds, the
reasoning/answer splitter for the streaming phase, the event stream, the
review-based rewrite of search-tool output, and the persistence step.

Modelling conventions: Python strings are Lean `String` / `List Char`;
floating-point scores are modelled as exact rationals (`ℚ`), with Python's
`round(x, k)` modelled as exact half-even rounding; Python `\w` word characters
are modelled as ASCII alphanumerics, underscore, and the CJK range
U+4E00–U+9FFF, matching the character class `[\w一-鿿]` used by the
code on its (ASCII/Chinese) inputs; external collaborators (model invocation,
tool execution, persistence) are oracles supplied in an environment record,
with `Except` results standing for Python exceptions.
-/

namespace ReviewTool

/-- Characters of a Python string. -/
abbrev Chars := List Char

/-- One character of the class `[\w一-鿿]` from `_tokenize`
(`search_review_tool.py`, line 23). -/
def isWordChar (c : Char) : Bool :=
  c.isAlphanum || c == '_' || (0x4e00 ≤ c.toNat && c.toNat ≤ 0x9fff)

/-- Maximal runs of word characters, as produced by
`re.findall(r"[\w一-鿿]+", text)`.  The accumulator holds the current
run in reverse. -/
def tokenizeAux : Chars → Chars → List Chars
  | [], cur => if cur.isEmpty then [] else [cur.reverse]
  | c :: rest, cur =>
    if isWordChar c then tokenizeAux rest (c :: cur)
    else if cur.isEmpty then tokenizeAux rest []
    else cur.reverse :: tokenizeAux rest []

/-- `_tokenize` (lines 20–25): lowercase, split into word/CJK runs, drop
tokens of length ≤ 1. -/
def tokenize (cs : Chars) : List Chars :=
  (tokenizeAux (cs.map Char.toLower) []).filter (fun t => 1 < t.length)

/-- `_compute_relevance_score` (lines 95–103): Jaccard index of the question
token set and the title+snippet token set; empty sets yield 0. -/
def relevanceScore (question title snippet : Chars) : ℚ :=
  let q := (tokenize question).dedup
  let d := (tokenize (title ++ [' '] ++ snippet)).dedup
  if q.isEmpty || d.isEmpty then 0
  else
    let inter := q.filter (fun t => t ∈ d)
    let union := q ++ d.filter (fun t => t ∉ q)
    (inter.length : ℚ) / (union.length : ℚ)

/-- `pat` is a prefix of `text` (character-wise). -/
def startsWithSeq : Chars → Chars → Bool
  | [], _ => true
  | _ :: _, [] => false
  | p :: ps, t :: ts => p == t && startsWithSeq ps ts

/-- Python's substring test `pat in text`. -/
def containsSeq (pat : Chars) : Chars → Bool
  | [] => startsWithSeq pat []
  | t :: ts => startsWithSeq pat (t :: ts) || containsSeq pat ts

/-- `current_date.replace('-', '年')` (line 127): every dash becomes 年. -/
def dashToNian (cs : Chars) : Chars :=
  cs.map fun c => if c == '-' then '年' else c

/-- Numeric value of a decimal digit character. -/
def digitVal (c : Char) : Nat := c.toNat - '0'.toNat

/-- A match of `(\d{4})年` at the head of the text. -/
def yearAtHead : Chars → Option Nat
  | a :: b :: c :: d :: e :: _ =>
    if a.isDigit && b.isDigit && c.isDigit && d.isDigit && e == '年' then
      some (digitVal a * 1000 + digitVal b * 100 + digitVal c * 10 + digitVal d)
    else none
  | _ => none

/-- Scanner for `re.findall(r"(\d{4})年", text)`: left-to-right,
non-overlapping.  The counter skips the remainder of a previous match. -/
def yearsOfAux : Chars → Nat → List Nat
  | [], _ => []
  | _ :: rest, Nat.succ k => yearsOfAux rest k
  | c :: rest, 0 =>
    match yearAtHead (c :: rest) with
    | some y => y :: yearsOfAux rest 4
    | none => yearsOfAux rest 0

/-- All `(\d{4})年` matches in the text, in order. -/
def yearsOf (cs : Chars) : List Nat := yearsOfAux cs 0

/-- The relative-recency markers of line 131:
`最近|日前|小时|今天|昨日|昨天|本周|本月|刚刚`. -/
def markers : List Chars :=
  ["最近", "日前", "小时", "今天", "昨日", "昨天", "本周", "本月", "刚刚"].map String.toList

/-- Whether any relative-recency marker occurs in the text. -/
def hasMarker (text : Chars) : Bool := markers.any (fun m => containsSeq m text)

/-- All-digit parse, for Python `int(...)` on the `YYYY` prefix. -/
def digitsToNat? (cs : Chars) : Option Nat :=
  if cs.isEmpty || !(cs.all Char.isDigit) then none
  else some (cs.foldl (fun acc c => acc * 10 + digitVal c) 0)

/-- The text before the first `-`, as for `current_date.split('-')[0]`. -/
def beforeDash (cs : Chars) : Chars := cs.takeWhile (fun c => c != '-')

/-- Parsing of `now_year` from the caller-supplied date string
(lines 114–123): a `(\d{4})年` search when the string contains 年, otherwise
`int` of the part before the first dash; any failure yields `none`. -/
def nowYearOf (d : Chars) : Option Nat :=
  if d.contains '年' then (yearsOf d).head?
  else digitsToNat? (beforeDash d)

/-- `_compute_recency_score` (lines 106–145).  Returns 1 when the date string
itself (or the string with dashes replaced by 年) occurs in title+snippet,
4/5 on a relative-recency marker, 3/5 or 1/5 depending on the first
`(\d{4})年` match, and 3/10 otherwise. -/
def recencyScore (current_date title snippet : Chars) : ℚ :=
  let nowYear := nowYearOf current_date
  let text := title ++ [' '] ++ snippet
  if !current_date.isEmpty &&
      (containsSeq current_date text || containsSeq (dashToNian current_date) text) then 1
  else if hasMarker text then 4/5
  else
    match yearsOf text with
    | y :: _ =>
      if (match nowYear with | some n => decide (n ≠ 0) && y == n | none => false) then 3/5
      else 1/5
    | [] => 3/10

/-- Half-even (banker's) rounding of a rational to an integer, matching
Python's `round`. -/
def roundHalfEven (q : ℚ) : ℤ :=
  let f := ⌊q⌋
  let r := q - (f : ℚ)
  if r < 1/2 then f
  else if 1/2 < r then f + 1
  else if f % 2 = 0 then f else f + 1

/-- Python `round(x, 3)` modelled exactly on rationals. -/
def roundQ3 (q : ℚ) : ℚ := (roundHalfEven (1000 * q) : ℚ) / 1000

/-- Python `round(x, 2)`, used by the `{rel:.2f}` reason formatting. -/
def fmt2 (q : ℚ) : String :=
  let n := roundHalfEven (100 * q)
  toString (n / 100) ++ "." ++ (if n % 100 < 10 then "0" else "") ++ toString (n % 100)

/-- A parsed search-result entry, i.e. one element of the output of
`_parse_formatted_results`. -/
structure PEntry where
  index : Nat
  title : String
  snippet : String
  url : String
  source : String
deriving DecidableEq

/-- A scored review entry, one element of the `entries` list in the JSON
returned by `review_search_results`. -/
structure REntry where
  index : Nat
  title : String
  snippet : String
  url : String
  source : String
  relevance_score : ℚ
  recency_score : ℚ
  final_score : ℚ
  reasons : List String
deriving DecidableEq

/-- The reason strings built in lines 183–194. -/
def reasonsFor (rel rec' : ℚ) : List String :=
  [if 2/5 < rel then "关键词匹配(" ++ fmt2 rel ++ ")" else "关键词匹配弱(" ++ fmt2 rel ++ ")",
   if 4/5 ≤ rec' then "时间信息与查询高度一致"
   else if 1/2 ≤ rec' then "时间可能相关" else "时间不明确或较旧"]

/-- Scoring of one parsed entry (lines 172–206 of `review_search_results`):
relevance and recency scores, the 0.7/0.3 blend, and the reasons list. -/
def scoreEntry (question current_date : String) (e : PEntry) : REntry :=
  let rel := relevanceScore question.toList e.title.toList e.snippet.toList
  let rec' := recencyScore current_date.toList e.title.toList e.snippet.toList
  let final := rel * (7/10) + rec' * (3/10)
  { index := e.index, title := e.title, snippet := e.snippet, url := e.url,
    source := e.source, relevance_score := roundQ3 rel, recency_score := roundQ3 rec',
    final_score := roundQ3 final, reasons := reasonsFor rel rec' }

/-- The scored entry list of one review call. -/
def reviewEntries (question current_date : String) (entries : List PEntry) : List REntry :=
  entries.map (scoreEntry question current_date)

/-- Stable insertion into a list sorted by descending `final_score`; an
element is placed before the first element whose score is ≤ its own, so
earlier elements stay before equal-scored later ones, as with Python's
stable `sorted(..., reverse=True)`. -/
def insertDesc (e : REntry) : List REntry → List REntry
  | [] => [e]
  | x :: xs => if x.final_score ≤ e.final_score then e :: x :: xs else x :: insertDesc e xs

/-- Stable descending sort by `final_score`, modelling
`sorted(results, key=lambda x: x['final_score'], reverse=True)`. -/
def sortFinalDesc : List REntry → List REntry
  | [] => []
  | x :: xs => insertDesc x (sortFinalDesc xs)

/-- Recommendation selection (lines 208–215): indices of the entries with
`final_score ≥ 0.4` in original order, and when none qualifies the indices of
the top `min 2 n` entries by final score. -/
def recommendOf (results : List REntry) : List Nat :=
  let rec' := (results.filter (fun r => (2:ℚ)/5 ≤ r.final_score)).map (fun r => r.index)
  if rec'.isEmpty && !results.isEmpty then
    ((sortFinalDesc results).take 2).map (fun r => r.index)
  else rec'

/-- The review outcome consumed by the dispatcher: the `recommendations` and
`entries` fields of the JSON produced by `review_search_results`
(lines 219–227), after parsing of the formatted input. -/
structure ReviewOutput where
  recommendations : List Nat
  entries : List REntry
deriving DecidableEq

/-- `review_search_results` from the parsed entry list onwards
(lines 169–227; the upstream text parser supplies the `PEntry` list). -/
def reviewCore (question current_date : String) (entries : List PEntry) : ReviewOutput :=
  let res := reviewEntries question current_date entries
  { recommendations := recommendOf res, entries := res }

end ReviewTool

namespace Orc

open ReviewTool (REntry sortFinalDesc containsSeq)

/-- A requested tool call from a model response (`main.py` treats each as a
dict with `name`, `args`, `id`; arguments are opaque here). -/
structure ToolCall where
  name : String
  args : String
  id : String
deriving DecidableEq

/-- The part of a non-streaming model response the loop inspects:
its list of requested tool calls (`response.tool_calls`). -/
structure Response where
  toolCalls : List ToolCall
deriving DecidableEq

/-- A `ToolMessage` appended for one executed tool call. -/
structure ToolMsg where
  name : String
  content : String
  callId : String
deriving DecidableEq

/-- Conversation messages, as far as the loop distinguishes them. -/
inductive Message where
  | system (content : String)
  | human (content : String)
  | assistant (r : Response)
  | toolM (m : ToolMsg)
deriving DecidableEq

/-- The parsed review JSON used by the dispatcher's rewrite step
(`main.py`, lines 290–292): its `recommendations` and `entries` fields. -/
structure ReviewOutcome where
  recommendations : List Nat
  entries : List REntry
deriving DecidableEq

/-- The dispatcher's environment: the registry of tool names
(`WEB_SEARCH_TOOLS + REVIEW_TOOLS`), the tool executor
(`.error` = the tool raised), the review-tool invocation combined with JSON
parsing (`.error` = the review call raised, `.ok none` = `json.loads` failed),
and today's date string. -/
structure ToolEnv where
  registry : List String
  exec : ToolCall → Except String String
  review : String → String → String → Except String (Option ReviewOutcome)
  today : String

/-- The search-likeness test of lines 252: any of `search`, `web`, `news`
occurs in the lowercased tool name. -/
def isSearchLike (name : String) : Bool :=
  let l := (name.map Char.toLower).toList
  containsSeq "search".toList l || containsSeq "web".toList l ||
    containsSeq "news".toList l

/-- Dict-style lookup `entry_map[idx]` for `entry_map = {e['index']: e for e
in entries}` (line 297): later entries overwrite earlier ones. -/
def entryMapGet (entries : List REntry) (i : Nat) : Option REntry :=
  entries.reverse.find? (fun e => e.index == i)

/-- The padding loop of lines 306–315: append score-sorted entries whose
index is not yet present, stopping at 10. -/
def padLoop (acc : List REntry) (seen : List Nat) : List REntry → List REntry
  | [] => acc
  | e :: rest =>
    if 10 ≤ acc.length then acc
    else if e.index ∈ seen then padLoop acc seen rest
    else padLoop (acc ++ [e]) (seen ++ [e.index]) rest

/-- `final_entries` of lines 300–315: the recommended entries (first ten
recommendation indices resolved through the entry map), padded below ten by
the highest-scoring entries not already included. -/
def buildFinal (o : ReviewOutcome) : List REntry :=
  let phase1 := (o.recommendations.take 10).filterMap (entryMapGet o.entries)
  if phase1.length < 10 then
    padLoop phase1 (phase1.map (fun e => e.index)) (sortFinalDesc o.entries)
  else phase1

/-- One rendered block of the rewritten tool output (lines 327–334):
`[i] title`, snippet, optional link, source, optional reasons, blank line. -/
def entryBlock (i : Nat) (e : REntry) : String :=
  "[" ++ toString i ++ "] " ++ e.title ++ "\n" ++
  "📝 " ++ e.snippet ++ "\n" ++
  (if e.url ≠ "" then "🔗 " ++ e.url ++ "\n" else "") ++
  "📍 来源: " ++ e.source ++ "\n" ++
  (if e.reasons ≠ [] then "💡 推荐理由: " ++ String.intercalate ", " e.reasons ++ "\n" else "") ++
  "\n"

/-- Rendering of the selected entries numbered consecutively from `i`
(`enumerate(final_entries, 1)` at line 320). -/
def renderFrom (i : Nat) : List REntry → String
  | [] => ""
  | e :: rest => entryBlock i e ++ renderFrom (i + 1) rest

/-- The rewritten tool content of lines 319–334. -/
def renderFiltered (es : List REntry) : String :=
  "🔍 经审查筛选后的搜索结果：\n\n" ++ renderFrom 1 es

/-- The most recent user-authored text, scanning the message list in reverse
(lines 254–268; multimodal content lists are modelled as their joined text). -/
def userQuestionOf (msgs : List Message) : String :=
  match msgs.reverse.find? (fun m => match m with | .human _ => true | _ => false) with
  | some (.human c) => c
  | _ => ""

/-- Processing of one tool call by `execute_tool_calls` (lines 208–368):
`none` when the name resolves to no registered tool (the call is skipped);
otherwise a `ToolMessage` whose content is the raw result, the review-filtered
rewrite for search-like tools when the review step succeeds, or the error
description when the tool raised. -/
def runToolCall (tenv : ToolEnv) (question : String) (tc : ToolCall) : Option ToolMsg :=
  if tenv.registry.contains tc.name then
    match tenv.exec tc with
    | .error e => some ⟨tc.name, "工具执行失败: " ++ e, tc.id⟩
    | .ok raw =>
      let result :=
        if isSearchLike tc.name && tenv.registry.contains "review_search_results" then
          match tenv.review raw question tenv.today with
          | .error _ => raw
          | .ok none => raw
          | .ok (some o) =>
            if !o.recommendations.isEmpty && !o.entries.isEmpty then
              let fes := buildFinal o
              if !fes.isEmpty then renderFiltered fes else raw
            else raw
        else raw
      some ⟨tc.name, result, tc.id⟩
  else none

/-- `execute_tool_calls`: the tool messages produced for one round, in call
order, with unresolved names skipped. -/
def executeToolCalls (tenv : ToolEnv) (calls : List ToolCall) (msgs : List Message) :
    List ToolMsg :=
  calls.filterMap (runToolCall tenv (userQuestionOf msgs))

/-- One incremental unit of the final streaming call: the
`additional_kwargs["reasoning_content"]` payload and `chunk.content`
(absent payloads are the empty string, matching Python falsiness). -/
structure Chunk where
  reasoning : String
  content : String
deriving DecidableEq

/-- The wire events of the stream (§6 of the spec; the `yield`ed records of
`generate_streaming_response_with_tools`).  Timestamps are not modelled. -/
inductive Event where
  | sessionInit (sid : String)
  | toolCallsEv (tools : List (String × String))
  | toolResultsEv (results : List (String × String))
  | thoughtStart
  | thoughtContent (s : String)
  | thoughtEnd
  | answerStart
  | contentDelta (s : String)
  | messageComplete (full : String) (refs : List Nat)
  | errorEv (e : String)
deriving DecidableEq

/-- The 200-character truncation of a `tool_results` payload (line 632). -/
def trunc200 (s : String) : String :=
  if 200 < s.length then s.take 200 ++ "..." else s

/-- The environment of one run of `generate_streaming_response_with_tools`:
the call parameters and the external collaborators as oracles.  `respond r`
is the non-streaming model invocation of round `r`; `chunks` are the units
the final streaming call yields before `streamErr` (if any) is raised;
`persistErr` is the exception raised by `append_message`, if any;
`initErr` is the exception raised by model initialisation, if any. -/
structure Env where
  maxIter : Nat
  modelName : Option String
  enableTools : Bool
  bindOk : Bool
  initErr : Option String
  sessionId : Option String
  initialMessages : List Message
  respond : Nat → Except String Response
  tenv : ToolEnv
  chunks : List Chunk
  streamErr : Option String
  persistErr : Option String
  pdfChunks : List String
  refsOf : String → List Nat

/-- `get_chat_model_with_tools` (lines 178–195): tools are bound exactly when
they are enabled, the model is `deepseek-chat` (or the default `None`), and
binding succeeds. -/
def modelToolsBound (env : Env) : Bool :=
  env.enableTools && (env.modelName == some "deepseek-chat" || env.modelName == none)
    && env.bindOk

/-- The tool-calling loop of lines 592–644, by remaining fuel
(`max_iterations - iteration`).  Returns the events of the executed rounds
and—unless a model invocation raised—the message list for the final
streaming call. -/
def loopRun (env : Env) : Nat → Nat → List Message → List Event × Option (List Message)
  | 0, _, msgs => ([], some msgs)
  | Nat.succ fuel, r, msgs =>
    match env.respond (r + 1) with
    | .error e => ([Event.errorEv e], none)
    | .ok resp =>
      if resp.toolCalls.isEmpty then ([], some msgs)
      else
        let ev1 := Event.toolCallsEv (resp.toolCalls.map fun tc => (tc.name, tc.args))
        let msgs1 := msgs ++ [Message.assistant resp]
        let tms := executeToolCalls env.tenv resp.toolCalls msgs1
        let msgs2 := msgs1 ++ tms.map Message.toolM
        let ev2 := Event.toolResultsEv (tms.map fun tm => (tm.name, trunc200 tm.content))
        let next := loopRun env fuel (r + 1) msgs2
        (ev1 :: ev2 :: next.1, next.2)

/-- The splitter state of lines 652–654. -/
structure SplitSt where
  started : Bool
  ended : Bool
  answerStarted : Bool
  full : String
deriving DecidableEq

/-- Processing of one incremental unit (lines 657–709).  For a
reasoning-capable model a unit with a non-empty reasoning payload emits the
thought events and `continue`s, dropping any answer payload it carries; a
unit with a non-empty answer payload closes the reasoning channel, opens the
answer channel, and emits its `content_delta`. -/
def stepChunk (isR : Bool) (st : SplitSt) (c : Chunk) : SplitSt × List Event :=
  if isR && c.reasoning != "" then
    (⟨true, st.ended, st.answerStarted, st.full⟩,
      (if st.started then [] else [Event.thoughtStart]) ++ [Event.thoughtContent c.reasoning])
  else if c.content != "" then
    (⟨st.started, st.ended || (isR && st.started), true, st.full ++ c.content⟩,
      (if isR && st.started && !st.ended then [Event.thoughtEnd] else []) ++
      (if st.answerStarted then [] else [Event.answerStart]) ++
      [Event.contentDelta c.content])
  else (st, [])

/-- The stream loop over all incremental units. -/
def streamFold (isR : Bool) (st : SplitSt) : List Chunk → SplitSt × List Event
  | [] => (st, [])
  | c :: cs =>
    let s1 := stepChunk isR st c
    let s2 := streamFold isR s1.1 cs
    (s2.1, s1.2 ++ s2.2)

/-- The observable outcome of one run: its event stream, whether the final
streaming call was reached and with tools bound on its model
(`none` = never reached), and whether `append_message` was attempted and
succeeded (`none` = not attempted). -/
structure RunResult where
  events : List Event
  finalTools : Option Bool
  persisted : Option Bool
deriving DecidableEq

/-- `generate_streaming_response_with_tools` (lines 566–753) end to end:
model initialisation, the optional `session_init` event, the tool-calling
loop, the final streaming call through the splitter, the mandatory
`thought_process_end` cleanup, reference extraction, the persistence attempt
(whose failure is caught and only logged, lines 732–742), the single
`message_complete`, and the conversion of an uncaught exception into a single
`error` event by the surrounding handler (lines 746–753). -/
def runFull (env : Env) : RunResult :=
  match env.initErr with
  | some e => ⟨[Event.errorEv e], none, none⟩
  | none =>
    let initEvs := match env.sessionId with
      | some sid => [Event.sessionInit sid]
      | none => []
    match loopRun env env.maxIter 0 env.initialMessages with
    | (evs, none) => ⟨initEvs ++ evs, none, none⟩
    | (evs, some _) =>
      let isR := env.modelName == some "deepseek-reasoner"
      let sf := streamFold isR ⟨false, false, false, ""⟩ env.chunks
      match env.streamErr with
      | some e =>
        ⟨initEvs ++ evs ++ sf.2 ++ [Event.errorEv e], some (modelToolsBound env), none⟩
      | none =>
        let cleanup := if isR && sf.1.started && !sf.1.ended then [Event.thoughtEnd] else []
        let refs := if !env.pdfChunks.isEmpty then env.refsOf sf.1.full else []
        let persisted := match env.sessionId with
          | some _ => some env.persistErr.isNone
          | none => none
        ⟨initEvs ++ evs ++ sf.2 ++ cleanup ++ [Event.messageComplete sf.1.full refs],
          some (modelToolsBound env), persisted⟩

/-- Terminating events: `message_complete` or `error`. -/
def Event.isTerminal : Event → Bool
  | .messageComplete _ _ => true
  | .errorEv _ => true
  | _ => false

/-- `tool_calls` events, one per executed round of tool dispatch. -/
def Event.isToolCallsEv : Event → Bool
  | .toolCallsEv _ => true
  | _ => false

/-- `thought_process_end` events. -/
def Event.isThoughtEnd : Event → Bool
  | .thoughtEnd => true
  | _ => false

/-- `content_delta` events. -/
def Event.isContentDelta : Event → Bool
  | .contentDelta _ => true
  | _ => false

/-- `error` events. -/
def Event.isErrorEv : Event → Bool
  | .errorEv _ => true
  | _ => false

/-- Events a dispatch round may emit (`tool_calls`/`tool_results`). -/
def Event.isRoundEv : Event → Bool
  | .toolCallsEv _ => true
  | .toolResultsEv _ => true
  | _ => false

/-- Events the splitter may emit during the streaming phase. -/
def Event.isStreamEv : Event → Bool
  | .thoughtStart => true
  | .thoughtContent _ => true
  | .thoughtEnd => true
  | .answerStart => true
  | .contentDelta _ => true
  | _ => false

/-- Splitting of a character list at newlines, as Python's
`splitlines`-style decomposition of the rendered block. -/
def splitNL : List Char → List (List Char)
  | [] => [[]]
  | c :: rest =>
    if c = '\n' then [] :: splitNL rest
    else
      match splitNL rest with
      | l :: ls => (c :: l) :: ls
      | [] => [[c]]

/-- The lines of a rendered block that start with `[`, i.e. its numbered
entry headers. -/
def headerLines (cs : List Char) : List (List Char) :=
  (splitNL cs).filter (fun l => l.head? == some '[')

/-- A string free of newline characters. -/
def noNL (s : String) : Prop := '\n' ∉ s.toList

/-- An entry whose rendered fields contain no newline, so that its block
contributes exactly its own lines. -/
def cleanEntry (e : REntry) : Prop :=
  noNL e.title ∧ noNL e.snippet ∧ noNL e.url ∧ noNL e.source ∧ ∀ r ∈ e.reasons, noNL r

instance : DecidablePred noNL := fun s => by unfold noNL; infer_instance

instance : DecidablePred cleanEntry := fun e => by unfold cleanEntry; infer_instance

/-- Concatenation of a list of strings (for accumulated `full_response`). -/
def strConcat : List String → String
  | [] => ""
  | s :: rest => s ++ strConcat rest

/-- Newline-terminated joining of lines, the shape of a rendered block. -/
def lineJoin : List (List Char) → List Char
  | [] => []
  | l :: ls => l ++ '\n' :: lineJoin ls

/-- The lines of one rendered entry block, in order: header, snippet,
optional link, source, optional reasons, and the separating blank line. -/
def blockLines (i : Nat) (e : REntry) : List (List Char) :=
  ('[' :: ((toString i).toList ++ ']' :: ' ' :: e.title.toList)) ::
  ('📝' :: ' ' :: e.snippet.toList) ::
  ((if e.url ≠ "" then [('🔗' :: ' ' :: e.url.toList)] else []) ++
   (("📍 来源: ".toList ++ e.source.toList) ::
    ((if e.reasons ≠ [] then
        [("💡 推荐理由: ".toList ++ (String.intercalate ", " e.reasons).toList)]
      else []) ++ [[]])))

/-- A trivial dispatcher environment for concrete runs: no registered tools. -/
def emptyToolEnv : ToolEnv :=
  ⟨[], fun _ => Except.ok "", fun _ _ _ => Except.ok none, "2025-01-01"⟩

/-- A dispatcher environment with the search and review tools registered. -/
def sampleToolEnv : ToolEnv :=
  ⟨["web_search", "review_search_results"], fun _ => Except.ok "结果",
   fun _ _ _ => Except.ok none, "2025-01-01"⟩

/-- A base environment: `deepseek-chat` with tools enabled and bound, no
session, an immediate tool-free model response, and an empty final stream. -/
def baseEnv : Env :=
  { maxIter := 5, modelName := some "deepseek-chat", enableTools := true,
    bindOk := true, initErr := none, sessionId := none, initialMessages := [],
    respond := fun _ => Except.ok ⟨[]⟩, tenv := emptyToolEnv, chunks := [],
    streamErr := none, persistErr := none, pdfChunks := [], refsOf := fun _ => [] }

/-- A run with a session id whose persistence step raises. -/
def persistFailEnv : Env := { baseEnv with
  sessionId := some "s", persistErr := some "disk full", chunks := [⟨"", "你好"⟩] }

/-- A reasoner run whose single unit carries both a reasoning payload and an
answer payload. -/
def dualPayloadEnv : Env := { baseEnv with
  modelName := some "deepseek-reasoner", chunks := [⟨"思", "答"⟩] }

/-- A reasoner run with reasoning payloads only: the answer channel never
opens. -/
def reasoningOnlyEnv : Env := { baseEnv with
  modelName := some "deepseek-reasoner", chunks := [⟨"思", ""⟩, ⟨"考", ""⟩] }

end Orc

namespace ReviewTool

theorem recencyScore_branch (d t s : Chars)
    (h1 : (!d.isEmpty && (containsSeq d (t ++ [' '] ++ s)
        || containsSeq (dashToNian d) (t ++ [' '] ++ s))) = false)
    (h2 : hasMarker (t ++ [' '] ++ s) = false) :
    recencyScore d t s =
      match yearsOf (t ++ [' '] ++ s) with
      | y :: _ =>
        if (match nowYearOf d with
            | some n => decide (n ≠ 0) && y == n
            | none => false) then 3/5 else 1/5
      | [] => 3/10 := by
  unfold recencyScore
  simp only [h1, h2, Bool.false_eq_true, if_false]

theorem insertDesc_perm (e : REntry) (l : List REntry) :
    (insertDesc e l).Perm (e :: l) := by
  induction l with
  | nil => exact List.Perm.refl _
  | cons x xs ih =>
    by_cases h : x.final_score ≤ e.final_score
    · simp only [insertDesc, if_pos h]
      exact List.Perm.refl _
    · simp only [insertDesc, if_neg h]
      exact (ih.cons x).trans (List.Perm.swap e x xs)

theorem mem_insertDesc {a e : REntry} {l : List REntry} :
    a ∈ insertDesc e l ↔ a = e ∨ a ∈ l := by
  rw [(insertDesc_perm e l).mem_iff, List.mem_cons]

theorem insertDesc_pairwise (e : REntry) (l : List REntry)
    (h : l.Pairwise (fun a b => b.final_score ≤ a.final_score)) :
    (insertDesc e l).Pairwise (fun a b => b.final_score ≤ a.final_score) := by
  induction l with
  | nil => simp [insertDesc]
  | cons x xs ih =>
    rcases List.pairwise_cons.mp h with ⟨hx, hxs⟩
    by_cases hc : x.final_score ≤ e.final_score
    · simp only [insertDesc, if_pos hc]
      refine List.pairwise_cons.mpr ⟨?_, h⟩
      intro b hb
      rcases List.mem_cons.mp hb with hb | hb
      · exact hb ▸ hc
      · exact le_trans (hx b hb) hc
    · simp only [insertDesc, if_neg hc]
      refine List.pairwise_cons.mpr ⟨?_, ih hxs⟩
      intro b hb
      rcases mem_insertDesc.mp hb with hb | hb
      · exact hb ▸ le_of_lt (lt_of_not_le hc)
      · exact hx b hb

theorem sortFinalDesc_perm (l : List REntry) : (sortFinalDesc l).Perm l := by
  induction l with
  | nil => exact List.Perm.refl _
  | cons x xs ih => exact (insertDesc_perm x (sortFinalDesc xs)).trans (ih.cons x)

theorem sortFinalDesc_pairwise (l : List REntry) :
    (sortFinalDesc l).Pairwise (fun a b => b.final_score ≤ a.final_score) := by
  induction l with
  | nil => simp [sortFinalDesc]
  | cons x xs ih => exact insertDesc_pairwise x (sortFinalDesc xs) ih

theorem pairwise_take_drop {α : Type} {R : α → α → Prop} :
    ∀ (l : List α) (n : Nat), l.Pairwise R →
      ∀ a ∈ l.take n, ∀ b ∈ l.drop n, R a b := by
  intro l
  induction l with
  | nil => intro n _ a ha; simp at ha
  | cons x xs ih =>
    intro n h a ha b hb
    cases n with
    | zero => simp at ha
    | succ m =>
      rcases List.pairwise_cons.mp h with ⟨hx, hxs⟩
      simp only [List.take_succ_cons, List.mem_cons] at ha
      simp only [List.drop_succ_cons] at hb
      rcases ha with rfl | ha
      · exact hx b (List.drop_subset m xs hb)
      · exact ih m hxs a ha b hb

end ReviewTool

/-- C6 — code bug.  The claim says a reference date appearing verbatim in the
entry text in the `YYYY年MM月DD日` form yields recency score 1.0.  The code
only checks for the date string itself and for the string with every dash
replaced by 年 (`2025-11-22` → `2025年11年22`), so the Chinese date form is
never recognised: here 2025年11月22日 occurs verbatim in the snippet, yet
`_compute_recency_score` falls through to the same-year branch and returns
0.6. -/
theorem review_c6_code_bug_eval :
    ReviewTool.containsSeq ("2025年11月22日".toList)
      (("".toList) ++ [' '] ++ ("发布于2025年11月22日".toList)) = true ∧
    ReviewTool.recencyScore ("2025-11-22".toList) ("".toList)
      ("发布于2025年11月22日".toList) = 3/5 := by
  refine ⟨by decide, ?_⟩
  rw [ReviewTool.recencyScore_branch _ _ _ (by decide) (by decide)]
  have hy : ReviewTool.yearsOf (("".toList) ++ [' '] ++ ("发布于2025年11月22日".toList))
      = [2025] := by decide
  rw [hy]
  have hn : ReviewTool.nowYearOf ("2025-11-22".toList) = some 2025 := by decide
  rw [hn]
  norm_num

/-- C7 — counterexample.  The entry text contains neither the reference date
nor a relative-recency marker, it mentions the year 2025 (equal to the
reference date's year) in `\d{4}年` form, yet `_compute_recency_score`
returns 0.2 rather than the claimed 0.6, because only the first year
mentioned (2020) is compared. -/
theorem review_c7_counter :
    ReviewTool.containsSeq ("2025-11-22".toList)
      (("2020年的事与2025年的新闻".toList) ++ [' '] ++ ("".toList)) = false ∧
    ReviewTool.hasMarker (("2020年的事与2025年的新闻".toList) ++ [' '] ++ ("".toList)) = false ∧
    ReviewTool.nowYearOf ("2025-11-22".toList) = some 2025 ∧
    2025 ∈ ReviewTool.yearsOf (("2020年的事与2025年的新闻".toList) ++ [' '] ++ ("".toList)) ∧
    ReviewTool.recencyScore ("2025-11-22".toList) ("2020年的事与2025年的新闻".toList)
      ("".toList) = 1/5 := by
  refine ⟨by decide, by decide, by decide, by decide, ?_⟩
  rw [ReviewTool.recencyScore_branch _ _ _ (by decide) (by decide)]
  have hy : ReviewTool.yearsOf (("2020年的事与2025年的新闻".toList) ++ [' '] ++ ("".toList))
      = [2020, 2025] := by decide
  rw [hy]
  have hn : ReviewTool.nowYearOf ("2025-11-22".toList) = some 2025 := by decide
  rw [hn]
  norm_num

/-- C7 — amended.  When the entry text contains neither the reference-date
string (nor its dash→年 variant) and no relative-recency marker, and the
reference date parses to a non-zero year, `_compute_recency_score` returns
0.6 exactly when the FIRST year mentioned in `\d{4}年` form equals the
reference year, 0.2 when that first year differs, and 0.3 when no such year
occurs in the text at all. -/
theorem review_c7_amended (d t s : ReviewTool.Chars) (ry : Nat)
    (hdate : (!d.isEmpty && (ReviewTool.containsSeq d (t ++ [' '] ++ s)
        || ReviewTool.containsSeq (ReviewTool.dashToNian d) (t ++ [' '] ++ s))) = false)
    (hmark : ReviewTool.hasMarker (t ++ [' '] ++ s) = false)
    (hyear : ReviewTool.nowYearOf d = some ry) (hry : ry ≠ 0) :
    (∀ y ys, ReviewTool.yearsOf (t ++ [' '] ++ s) = y :: ys →
      ReviewTool.recencyScore d t s = if y = ry then 3/5 else 1/5) ∧
    (ReviewTool.yearsOf (t ++ [' '] ++ s) = [] →
      ReviewTool.recencyScore d t s = 3/10) := by
  constructor
  · intro y ys hy
    rw [ReviewTool.recencyScore_branch _ _ _ hdate hmark, hy, hyear]
    by_cases h : y = ry
    · simp [h, hry]
    · simp [h]
  · intro hy
    rw [ReviewTool.recencyScore_branch _ _ _ hdate hmark, hy]

/-- C7 — witness for the amended theorem, at reference date `2025-11-22` and
entry text `2024年初`: the first (only) mentioned year 2024 differs from
2025, so the score is 0.2. -/
theorem review_c7_amended_witness :
    (∀ y ys, ReviewTool.yearsOf (("2024年初".toList) ++ [' '] ++ ("".toList)) = y :: ys →
      ReviewTool.recencyScore ("2025-11-22".toList) ("2024年初".toList) ("".toList) =
        if y = 2025 then 3/5 else 1/5) ∧
    (ReviewTool.yearsOf (("2024年初".toList) ++ [' '] ++ ("".toList)) = [] →
      ReviewTool.recencyScore ("2025-11-22".toList) ("2024年初".toList) ("".toList) = 3/10) :=
  review_c7_amended ("2025-11-22".toList) ("2024年初".toList) ("".toList) 2025
    (by decide) (by decide) (by decide) (by decide)

/-- C8 — confirmed.  For every non-empty scored entry list:
when at least one entry has final score ≥ 0.4, the recommended indices are
exactly those entries' indices in original order; when no entry reaches 0.4,
the recommendation is the indices of `min 2 n` entries that, together with
the remaining entries, permute the full list and whose final scores dominate
every remaining entry's score (the top-2 by final score). -/
theorem review_c8 (question date : String) (entries : List ReviewTool.PEntry)
    (hne : entries ≠ []) :
    ((ReviewTool.reviewEntries question date entries).filter
        (fun r => (2:ℚ)/5 ≤ r.final_score) ≠ [] →
      ReviewTool.recommendOf (ReviewTool.reviewEntries question date entries) =
        ((ReviewTool.reviewEntries question date entries).filter
          (fun r => (2:ℚ)/5 ≤ r.final_score)).map (fun r => r.index)) ∧
    ((∀ r ∈ ReviewTool.reviewEntries question date entries, r.final_score < 2/5) →
      ∃ top rest : List ReviewTool.REntry,
        (top ++ rest).Perm (ReviewTool.reviewEntries question date entries) ∧
        top.length = min 2 (ReviewTool.reviewEntries question date entries).length ∧
        ReviewTool.recommendOf (ReviewTool.reviewEntries question date entries) =
          top.map (fun r => r.index) ∧
        (∀ a ∈ top, ∀ b ∈ rest, b.final_score ≤ a.final_score)) := by
  constructor
  · intro hfil
    have h1 : (((ReviewTool.reviewEntries question date entries).filter
        (fun r => (2:ℚ)/5 ≤ r.final_score)).map (fun r => r.index)).isEmpty = false := by
      simp [List.isEmpty_iff, hfil]
    simp only [ReviewTool.recommendOf, h1, Bool.false_and, Bool.false_eq_true, if_false]
  · intro hall
    have hfil : (ReviewTool.reviewEntries question date entries).filter
        (fun r => (2:ℚ)/5 ≤ r.final_score) = [] := by
      refine List.filter_eq_nil_iff.mpr fun a ha => ?_
      simpa using not_le.mpr (hall a ha)
    have hres : ReviewTool.reviewEntries question date entries ≠ [] := by
      simpa [ReviewTool.reviewEntries] using hne
    refine ⟨(ReviewTool.sortFinalDesc (ReviewTool.reviewEntries question date entries)).take 2,
      (ReviewTool.sortFinalDesc (ReviewTool.reviewEntries question date entries)).drop 2,
      ?_, ?_, ?_, ?_⟩
    · rw [List.take_append_drop]
      exact ReviewTool.sortFinalDesc_perm _
    · rw [List.length_take, (ReviewTool.sortFinalDesc_perm _).length_eq]
    · have h1 : ((ReviewTool.reviewEntries question date entries).isEmpty) = false := by
        simp [List.isEmpty_iff, hres]
      simp only [ReviewTool.recommendOf, hfil, h1, List.map_nil, List.isEmpty_nil,
        Bool.not_false, Bool.and_self, if_true]
    · exact fun a ha b hb =>
        ReviewTool.pairwise_take_drop _ 2 (ReviewTool.sortFinalDesc_pairwise _) a ha b hb

/-- C8 — witness at a single-entry list (the no-qualifier branch then
recommends exactly `min 2 1 = 1` entry). -/
theorem review_c8_witness :
    ((ReviewTool.reviewEntries "问" "2025-01-01" [⟨1, "标题", "摘要", "", "来源"⟩]).filter
        (fun r => (2:ℚ)/5 ≤ r.final_score) ≠ [] →
      ReviewTool.recommendOf
          (ReviewTool.reviewEntries "问" "2025-01-01" [⟨1, "标题", "摘要", "", "来源"⟩]) =
        ((ReviewTool.reviewEntries "问" "2025-01-01" [⟨1, "标题", "摘要", "", "来源"⟩]).filter
          (fun r => (2:ℚ)/5 ≤ r.final_score)).map (fun r => r.index)) ∧
    ((∀ r ∈ ReviewTool.reviewEntries "问" "2025-01-01" [⟨1, "标题", "摘要", "", "来源"⟩],
        r.final_score < 2/5) →
      ∃ top rest : List ReviewTool.REntry,
        (top ++ rest).Perm
          (ReviewTool.reviewEntries "问" "2025-01-01" [⟨1, "标题", "摘要", "", "来源"⟩]) ∧
        top.length = min 2
          (ReviewTool.reviewEntries "问" "2025-01-01" [⟨1, "标题", "摘要", "", "来源"⟩]).length ∧
        ReviewTool.recommendOf
            (ReviewTool.reviewEntries "问" "2025-01-01" [⟨1, "标题", "摘要", "", "来源"⟩]) =
          top.map (fun r => r.index) ∧
        (∀ a ∈ top, ∀ b ∈ rest, b.final_score ≤ a.final_score)) :=
  review_c8 "问" "2025-01-01" [⟨1, "标题", "摘要", "", "来源"⟩] (by decide)


namespace Orc

theorem roundEv_facts (e : Event) (h : e.isRoundEv = true) :
    e.isTerminal = false ∧ e.isThoughtEnd = false ∧ e.isContentDelta = false ∧
    e.isErrorEv = false ∧ e.isStreamEv = false := by
  cases e <;> simp_all [Event.isRoundEv, Event.isTerminal, Event.isThoughtEnd,
    Event.isContentDelta, Event.isErrorEv, Event.isStreamEv]

theorem streamEv_facts (e : Event) (h : e.isStreamEv = true) :
    e.isTerminal = false ∧ e.isToolCallsEv = false ∧ e.isErrorEv = false := by
  cases e <;> simp_all [Event.isStreamEv, Event.isTerminal, Event.isToolCallsEv,
    Event.isErrorEv]

theorem filter_false_of {l : List Event} {p : Event → Bool}
    (h : ∀ e ∈ l, p e = false) : l.filter p = [] := by
  refine List.filter_eq_nil_iff.mpr fun a ha => ?_
  simp [h a ha]

theorem loopRun_cases (env : Env) : ∀ (fuel r : Nat) (msgs : List Message),
    (∃ evs msgs', loopRun env fuel r msgs = (evs, some msgs') ∧
        ∀ e ∈ evs, e.isRoundEv = true) ∨
    (∃ evs err, loopRun env fuel r msgs = (evs ++ [Event.errorEv err], none) ∧
        ∀ e ∈ evs, e.isRoundEv = true) := by
  intro fuel
  induction fuel with
  | zero => intro r msgs; left; exact ⟨[], msgs, rfl, by simp⟩
  | succ fuel ih =>
    intro r msgs
    cases hresp : env.respond (r + 1) with
    | error e =>
      right
      refine ⟨[], e, ?_, by simp⟩
      simp [loopRun, hresp]
    | ok resp =>
      by_cases hemp : resp.toolCalls.isEmpty
      · left
        refine ⟨[], msgs, ?_, by simp⟩
        simp [loopRun, hresp, hemp]
      · have hstep : loopRun env (fuel + 1) r msgs =
            (Event.toolCallsEv (resp.toolCalls.map fun tc => (tc.name, tc.args)) ::
             Event.toolResultsEv ((executeToolCalls env.tenv resp.toolCalls
                (msgs ++ [Message.assistant resp])).map
                  (fun tm => (tm.name, trunc200 tm.content))) ::
             (loopRun env fuel (r + 1)
               ((msgs ++ [Message.assistant resp]) ++
                (executeToolCalls env.tenv resp.toolCalls
                  (msgs ++ [Message.assistant resp])).map Message.toolM)).1,
             (loopRun env fuel (r + 1)
               ((msgs ++ [Message.assistant resp]) ++
                (executeToolCalls env.tenv resp.toolCalls
                  (msgs ++ [Message.assistant resp])).map Message.toolM)).2) := by
          simp [loopRun, hresp, hemp]
        rcases ih (r + 1)
            ((msgs ++ [Message.assistant resp]) ++
             (executeToolCalls env.tenv resp.toolCalls
               (msgs ++ [Message.assistant resp])).map Message.toolM) with
          ⟨evs, msgs', heq, hall⟩ | ⟨evs, err, heq, hall⟩
        · left
          refine ⟨Event.toolCallsEv (resp.toolCalls.map fun tc => (tc.name, tc.args)) ::
              Event.toolResultsEv ((executeToolCalls env.tenv resp.toolCalls
                (msgs ++ [Message.assistant resp])).map
                  (fun tm => (tm.name, trunc200 tm.content))) :: evs, msgs',
            by rw [hstep, heq], ?_⟩
          intro e he
          rcases List.mem_cons.mp he with rfl | he
          · rfl
          rcases List.mem_cons.mp he with rfl | he
          · rfl
          exact hall e he
        · right
          refine ⟨Event.toolCallsEv (resp.toolCalls.map fun tc => (tc.name, tc.args)) ::
              Event.toolResultsEv ((executeToolCalls env.tenv resp.toolCalls
                (msgs ++ [Message.assistant resp])).map
                  (fun tm => (tm.name, trunc200 tm.content))) :: evs, err,
            by rw [hstep, heq]; rfl, ?_⟩
          intro e he
          rcases List.mem_cons.mp he with rfl | he
          · rfl
          rcases List.mem_cons.mp he with rfl | he
          · rfl
          exact hall e he

theorem loopRun_toolCalls_le (env : Env) : ∀ (fuel r : Nat) (msgs : List Message),
    ((loopRun env fuel r msgs).1.filter Event.isToolCallsEv).length ≤ fuel := by
  intro fuel
  induction fuel with
  | zero => intro r msgs; simp [loopRun]
  | succ fuel ih =>
    intro r msgs
    cases hresp : env.respond (r + 1) with
    | error e => simp [loopRun, hresp, Event.isToolCallsEv]
    | ok resp =>
      by_cases hemp : resp.toolCalls.isEmpty
      · simp [loopRun, hresp, hemp]
      · simp only [loopRun, hresp, hemp, Bool.false_eq_true, if_false]
        simp only [List.filter_cons]
        have h1 : Event.isToolCallsEv
            (Event.toolCallsEv (resp.toolCalls.map fun tc => (tc.name, tc.args))) = true := rfl
        have h2 : Event.isToolCallsEv
            (Event.toolResultsEv ((executeToolCalls env.tenv resp.toolCalls
              (msgs ++ [Message.assistant resp])).map
                (fun tm => (tm.name, trunc200 tm.content)))) = false := rfl
        simp only [h1, h2, Bool.false_eq_true, if_false, if_true, List.length_cons]
        exact Nat.succ_le_succ (ih _ _)

theorem loopRun_ok (env : Env)
    (hResp : ∀ r, ∃ resp, env.respond r = Except.ok resp) :
    ∀ (fuel r : Nat) (msgs : List Message), (loopRun env fuel r msgs).2 ≠ none := by
  intro fuel
  induction fuel with
  | zero => intro r msgs; simp [loopRun]
  | succ fuel ih =>
    intro r msgs
    obtain ⟨resp, hr⟩ := hResp (r + 1)
    by_cases hemp : resp.toolCalls.isEmpty
    · simp [loopRun, hr, hemp]
    · simp only [loopRun, hr, hemp, Bool.false_eq_true, if_false]
      exact ih _ _

theorem loopRun_ok_cases (env : Env)
    (hResp : ∀ r, ∃ resp, env.respond r = Except.ok resp)
    (fuel r : Nat) (msgs : List Message) :
    ∃ evs msgs', loopRun env fuel r msgs = (evs, some msgs') ∧
      ∀ e ∈ evs, e.isRoundEv = true := by
  rcases loopRun_cases env fuel r msgs with h | ⟨evs, err, heq, _⟩
  · exact h
  · exact absurd (congrArg Prod.snd heq) (loopRun_ok env hResp fuel r msgs)

theorem stepChunk_stream (isR : Bool) (st : SplitSt) (c : Chunk) :
    ∀ e ∈ (stepChunk isR st c).2, e.isStreamEv = true := by
  intro e he
  by_cases h1 : (isR && c.reasoning != "") = true
  · simp only [stepChunk, h1, if_true] at he
    by_cases h2 : st.started = true
    · simp [h2] at he
      subst he; rfl
    · simp [h2] at he
      rcases he with rfl | rfl <;> rfl
  · by_cases h3 : (c.content != "") = true
    · simp only [stepChunk, h1, Bool.false_eq_true, if_false, h3, if_true] at he
      rcases List.mem_append.mp he with h | h
      · rcases List.mem_append.mp h with h | h
        · by_cases h4 : (isR && st.started && !st.ended) = true
          · simp [h4] at h
            subst h; rfl
          · simp [h4] at h
        · by_cases h5 : st.answerStarted = true
          · simp [h5] at h
          · simp [h5] at h
            subst h; rfl
      · simp at h
        subst h; rfl
    · simp only [stepChunk, h1, Bool.false_eq_true, if_false, h3] at he
      simp at he

theorem streamFold_stream (isR : Bool) : ∀ (cs : List Chunk) (st : SplitSt),
    ∀ e ∈ (streamFold isR st cs).2, e.isStreamEv = true := by
  intro cs
  induction cs with
  | nil => intro st e he; simp [streamFold] at he
  | cons c cs ih =>
    intro st e he
    simp only [streamFold] at he
    rcases List.mem_append.mp he with h | h
    · exact stepChunk_stream isR st c e h
    · exact ih _ e h

theorem streamFold_content : ∀ (cs : List Chunk) (st : SplitSt),
    ((streamFold true st cs).2.filter Event.isContentDelta) =
      ((cs.filter (fun c => c.reasoning == "" && c.content != "")).map
        (fun c => Event.contentDelta c.content)) ∧
    (streamFold true st cs).1.full = st.full ++ strConcat
      ((cs.filter (fun c => c.reasoning == "" && c.content != "")).map
        (fun c => c.content)) := by
  intro cs
  induction cs with
  | nil =>
    intro st
    constructor
    · simp [streamFold]
    · simp [streamFold, strConcat]
  | cons c cs ih =>
    intro st
    by_cases h1 : (c.reasoning != "") = true
    · have hcf : (c.reasoning == "" && c.content != "") = false := by
        have h0 : (c.reasoning == "") = false := by
          cases hcc : (c.reasoning == "") with
          | false => rfl
          | true => simp [bne, hcc] at h1
        simp [h0]
      rcases ih ⟨true, st.ended, st.answerStarted, st.full⟩ with ⟨ihf, ihfull⟩
      constructor
      · simp [streamFold, stepChunk, h1, List.filter_append, List.filter_cons, hcf,
          ihf, apply_ite (List.filter Event.isContentDelta), Event.isContentDelta]
      · simp [streamFold, stepChunk, h1, List.filter_cons, hcf, ihfull]
    · by_cases h3 : (c.content != "") = true
      · have h0 : c.reasoning = "" := by
          cases hcc : (c.reasoning == "") with
          | true => exact eq_of_beq hcc
          | false => simp [bne, hcc] at h1
        have hcf : (c.reasoning == "" && c.content != "") = true := by simp [h0, h3]
        rcases ih ⟨st.started, st.ended || st.started, true,
          st.full ++ c.content⟩ with ⟨ihf, ihfull⟩
        constructor
        · simp [streamFold, stepChunk, h1, h3, List.filter_append, List.filter_cons,
            hcf, h0, ihf, apply_ite (List.filter Event.isContentDelta),
            Event.isContentDelta]
        · simp [streamFold, stepChunk, h1, h3, List.filter_cons, hcf, h0, ihfull,
            strConcat, String.append_assoc]
      · have hcf : (c.reasoning == "" && c.content != "") = false := by
          simp [h3]
        rcases ih st with ⟨ihf, ihfull⟩
        constructor
        · simp [streamFold, stepChunk, h1, h3, List.filter_cons, hcf, ihf]
        · simp [streamFold, stepChunk, h1, h3, List.filter_cons, hcf, ihfull]

theorem streamFold_no_content : ∀ (cs : List Chunk), (∀ c ∈ cs, c.content = "") →
    ∀ (st : SplitSt),
      ((streamFold true st cs).2.filter Event.isThoughtEnd) = [] ∧
      (streamFold true st cs).1.ended = st.ended ∧
      (streamFold true st cs).1.started =
        (st.started || cs.any (fun c => c.reasoning != "")) ∧
      (streamFold true st cs).1.full = st.full := by
  intro cs
  induction cs with
  | nil => intro _ st; simp [streamFold]
  | cons c cs ih =>
    intro hc st
    have hcc : c.content = "" := hc c (List.mem_cons_self c cs)
    have h3 : (c.content != "") = false := by simp [hcc]
    by_cases h1 : (c.reasoning != "") = true
    · rcases ih (fun x hx => hc x (List.mem_cons_of_mem c hx))
        ⟨true, st.ended, st.answerStarted, st.full⟩ with ⟨ih1, ih2, ih3, ih4⟩
      refine ⟨?_, ?_, ?_, ?_⟩
      · simp [streamFold, stepChunk, h1, List.filter_append, ih1,
          apply_ite (List.filter Event.isThoughtEnd), Event.isThoughtEnd]
      · simpa [streamFold, stepChunk, h1] using ih2
      · simp [streamFold, stepChunk, h1, ih3]
      · simpa [streamFold, stepChunk, h1] using ih4
    · have h1f : (c.reasoning != "") = false := by
        cases hcc2 : (c.reasoning != "") with
        | false => rfl
        | true => exact absurd hcc2 h1
      rcases ih (fun x hx => hc x (List.mem_cons_of_mem c hx)) st with ⟨ih1, ih2, ih3, ih4⟩
      refine ⟨?_, ?_, ?_, ?_⟩
      · simpa [streamFold, stepChunk, h1, h3] using ih1
      · simpa [streamFold, stepChunk, h1, h3] using ih2
      · simp [streamFold, stepChunk, h1f, h3, ih3]
      · simpa [streamFold, stepChunk, h1, h3] using ih4

end Orc

/-- C1 — confirmed.  Every run of the tool-orchestration loop performs at
most `max_iterations` rounds of tool dispatch (counted by its `tool_calls`
events), and its event stream contains exactly one terminating event —
`message_complete` or `error` — which is the last event of the stream,
including runs that hit the iteration ceiling. -/
theorem orch_c1 (env : Orc.Env) :
    (((Orc.runFull env).events.filter Orc.Event.isTerminal).length = 1) ∧
    (∃ e, (Orc.runFull env).events.getLast? = some e ∧ e.isTerminal = true) ∧
    (((Orc.runFull env).events.filter Orc.Event.isToolCallsEv).length ≤ env.maxIter) := by
  cases hi : env.initErr with
  | some err =>
    refine ⟨?_, ⟨Orc.Event.errorEv err, ?_, rfl⟩, ?_⟩ <;>
      simp [Orc.runFull, hi, Orc.Event.isTerminal, Orc.Event.isToolCallsEv]
  | none =>
    have hS := Orc.streamFold_stream (env.modelName == some "deepseek-reasoner")
      env.chunks ⟨false, false, false, ""⟩
    have hSterm : ((Orc.streamFold (env.modelName == some "deepseek-reasoner")
        ⟨false, false, false, ""⟩ env.chunks).2.filter Orc.Event.isTerminal) = [] :=
      Orc.filter_false_of fun e he => (Orc.streamEv_facts e (hS e he)).1
    have hStc : ((Orc.streamFold (env.modelName == some "deepseek-reasoner")
        ⟨false, false, false, ""⟩ env.chunks).2.filter Orc.Event.isToolCallsEv) = [] :=
      Orc.filter_false_of fun e he => (Orc.streamEv_facts e (hS e he)).2.1
    have hTCle := Orc.loopRun_toolCalls_le env env.maxIter 0 env.initialMessages
    rcases Orc.loopRun_cases env env.maxIter 0 env.initialMessages with
      ⟨evs, msgs', heq, hall⟩ | ⟨evs, err, heq, hall⟩
    · have hT : evs.filter Orc.Event.isTerminal = [] :=
        Orc.filter_false_of fun e he => (Orc.roundEv_facts e (hall e he)).1
      have hTCle' : (evs.filter Orc.Event.isToolCallsEv).length ≤ env.maxIter := by
        simpa [heq] using hTCle
      cases hsid : env.sessionId with
      | none =>
        cases hstr : env.streamErr with
        | some serr =>
          refine ⟨?_, ?_, ?_⟩
          · simp only [Orc.runFull, hi, heq, hsid, hstr]
            simp [List.filter_append, hT, hSterm, Orc.Event.isTerminal]
          · simp only [Orc.runFull, hi, heq, hsid, hstr]
            exact ⟨_, List.getLast?_concat _, rfl⟩
          · simp only [Orc.runFull, hi, heq, hsid, hstr]
            simpa [List.filter_append, hStc, Orc.Event.isToolCallsEv] using hTCle'
        | none =>
          refine ⟨?_, ?_, ?_⟩
          · simp only [Orc.runFull, hi, heq, hsid, hstr]
            simp [List.filter_append, hT, hSterm, Orc.Event.isTerminal,
              apply_ite (List.filter Orc.Event.isTerminal)]
          · simp only [Orc.runFull, hi, heq, hsid, hstr]
            exact ⟨_, List.getLast?_concat _, rfl⟩
          · simp only [Orc.runFull, hi, heq, hsid, hstr]
            simpa [List.filter_append, hStc, Orc.Event.isToolCallsEv,
              apply_ite (List.filter Orc.Event.isToolCallsEv)] using hTCle'
      | some sid =>
        cases hstr : env.streamErr with
        | some serr =>
          refine ⟨?_, ?_, ?_⟩
          · simp only [Orc.runFull, hi, heq, hsid, hstr]
            simp [List.filter_append, hT, hSterm, Orc.Event.isTerminal]
          · simp only [Orc.runFull, hi, heq, hsid, hstr]
            exact ⟨_, List.getLast?_concat _, rfl⟩
          · simp only [Orc.runFull, hi, heq, hsid, hstr]
            simpa [List.filter_append, hStc, Orc.Event.isToolCallsEv] using hTCle'
        | none =>
          refine ⟨?_, ?_, ?_⟩
          · simp only [Orc.runFull, hi, heq, hsid, hstr]
            simp [List.filter_append, hT, hSterm, Orc.Event.isTerminal,
              apply_ite (List.filter Orc.Event.isTerminal)]
          · simp only [Orc.runFull, hi, heq, hsid, hstr]
            exact ⟨_, List.getLast?_concat _, rfl⟩
          · simp only [Orc.runFull, hi, heq, hsid, hstr]
            simpa [List.filter_append, hStc, Orc.Event.isToolCallsEv,
              apply_ite (List.filter Orc.Event.isToolCallsEv)] using hTCle'
    · have hT : evs.filter Orc.Event.isTerminal = [] :=
        Orc.filter_false_of fun e he => (Orc.roundEv_facts e (hall e he)).1
      have hTCle' : ((evs ++ [Orc.Event.errorEv err]).filter
          Orc.Event.isToolCallsEv).length ≤ env.maxIter := by
        simpa [heq] using hTCle
      cases hsid : env.sessionId with
      | none =>
        refine ⟨?_, ?_, ?_⟩
        · simp only [Orc.runFull, hi, heq, hsid]
          simp [List.filter_append, hT, Orc.Event.isTerminal]
        · simp only [Orc.runFull, hi, heq, hsid]
          exact ⟨Orc.Event.errorEv err, by rw [List.nil_append]; exact List.getLast?_concat _, rfl⟩
        · simp only [Orc.runFull, hi, heq, hsid]
          simpa [List.filter_append, Orc.Event.isToolCallsEv] using hTCle'
      | some sid =>
        refine ⟨?_, ?_, ?_⟩
        · simp only [Orc.runFull, hi, heq, hsid]
          simp [List.filter_append, hT, Orc.Event.isTerminal]
        · simp only [Orc.runFull, hi, heq, hsid]
          exact ⟨Orc.Event.errorEv err, by rw [← List.append_assoc]; exact List.getLast?_concat _, rfl⟩
        · simp only [Orc.runFull, hi, heq, hsid]
          simpa [List.filter_append, Orc.Event.isToolCallsEv] using hTCle'

/-- C2 — counterexample.  A completed run with model `deepseek-chat`, tools
enabled and bound: the final streaming call is reached (it emits the single
`message_complete`) and the model used for it still has tools bound
(`finalTools = some true`), contradicting the claim that the final call is
tool-free. -/
theorem orch_c2_counter :
    (Orc.runFull Orc.baseEnv).finalTools = some true ∧
    (Orc.runFull Orc.baseEnv).events = [Orc.Event.messageComplete "" []] := by decide

/-- C2 — amended.  The final streaming call reuses the very model object of
the tool-calling loop: whenever the final call is reached, tools are bound on
it exactly when tools were enabled, the model is `deepseek-chat` (or the
default), and binding succeeded — the loop never forces tools off for the
final call. -/
theorem orch_c2_amended (env : Orc.Env) (b : Bool)
    (h : (Orc.runFull env).finalTools = some b) :
    b = (env.enableTools && (env.modelName == some "deepseek-chat" ||
         env.modelName == none) && env.bindOk) := by
  cases hi : env.initErr with
  | some err => simp [Orc.runFull, hi] at h
  | none =>
    rcases Orc.loopRun_cases env env.maxIter 0 env.initialMessages with
      ⟨evs, msgs', heq, _⟩ | ⟨evs, err, heq, _⟩
    · cases hstr : env.streamErr with
      | some serr =>
        simp only [Orc.runFull, hi, heq, hstr, Option.some.injEq] at h
        rw [← h, Orc.modelToolsBound]
      | none =>
        simp only [Orc.runFull, hi, heq, hstr, Option.some.injEq] at h
        rw [← h, Orc.modelToolsBound]
    · simp [Orc.runFull, hi, heq] at h

/-- C2 — witness for the amended theorem at the base environment. -/
theorem orch_c2_amended_witness :
    true = (Orc.baseEnv.enableTools && (Orc.baseEnv.modelName == some "deepseek-chat" ||
      Orc.baseEnv.modelName == none) && Orc.baseEnv.bindOk) :=
  orch_c2_amended Orc.baseEnv true (by decide)

/-- C3 — counterexample.  A run whose `append_message` call raises: the
persistence failure is caught where it occurs, no `error` event is emitted,
and the stream still terminates with `message_complete`, contradicting the
claim that a persistence failure is converted into a terminating `error`
event. -/
theorem orch_c3_counter :
    (Orc.runFull Orc.persistFailEnv).events =
      [Orc.Event.sessionInit "s", Orc.Event.answerStart, Orc.Event.contentDelta "你好",
       Orc.Event.messageComplete "你好" []] ∧
    (Orc.runFull Orc.persistFailEnv).persisted = some false ∧
    ((Orc.runFull Orc.persistFailEnv).events.filter Orc.Event.isErrorEv) = [] := by decide

/-- C3 — amended.  When the assistant-message persistence raises (and model
invocation, initialisation and streaming succeed), the failure is caught and
only logged: the run still terminates with a single `message_complete` and
emits no `error` event at all. -/
theorem orch_c3_amended (env : Orc.Env) (sid perr : String)
    (hsid : env.sessionId = some sid) (hp : env.persistErr = some perr)
    (hinit : env.initErr = none)
    (hResp : ∀ r, ∃ resp, env.respond r = Except.ok resp)
    (hstream : env.streamErr = none) :
    (Orc.runFull env).persisted = some false ∧
    (∃ pre full refs, (Orc.runFull env).events =
      pre ++ [Orc.Event.messageComplete full refs]) ∧
    ((Orc.runFull env).events.filter Orc.Event.isErrorEv) = [] := by
  rcases Orc.loopRun_ok_cases env hResp env.maxIter 0 env.initialMessages with
    ⟨evs, msgs', heq, hall⟩
  have hE : evs.filter Orc.Event.isErrorEv = [] :=
    Orc.filter_false_of fun e he => (Orc.roundEv_facts e (hall e he)).2.2.2.1
  have hS := Orc.streamFold_stream (env.modelName == some "deepseek-reasoner")
    env.chunks ⟨false, false, false, ""⟩
  have hSE : ((Orc.streamFold (env.modelName == some "deepseek-reasoner")
      ⟨false, false, false, ""⟩ env.chunks).2.filter Orc.Event.isErrorEv) = [] :=
    Orc.filter_false_of fun e he => (Orc.streamEv_facts e (hS e he)).2.2
  refine ⟨?_, ?_, ?_⟩
  · simp [Orc.runFull, hinit, heq, hstream, hsid, hp]
  · simp only [Orc.runFull, hinit, heq, hstream, hsid]
    exact ⟨_, _, _, rfl⟩
  · simp only [Orc.runFull, hinit, heq, hstream, hsid]
    simp [List.filter_append, hE, hSE, Orc.Event.isErrorEv,
      apply_ite (List.filter Orc.Event.isErrorEv)]

/-- C3 — witness for the amended theorem at the persistence-failure
environment. -/
theorem orch_c3_amended_witness :
    (Orc.runFull Orc.persistFailEnv).persisted = some false ∧
    (∃ pre full refs, (Orc.runFull Orc.persistFailEnv).events =
      pre ++ [Orc.Event.messageComplete full refs]) ∧
    ((Orc.runFull Orc.persistFailEnv).events.filter Orc.Event.isErrorEv) = [] :=
  orch_c3_amended Orc.persistFailEnv "s" "disk full" rfl rfl rfl
    (fun _ => ⟨⟨[]⟩, rfl⟩) rfl

/-- C4 — counterexample.  A reasoner run whose single unit carries both a
non-empty reasoning payload and the non-empty answer payload `答`: the unit
is consumed by the reasoning branch (`continue`), so no `content_delta`
carrying `答` is emitted and the final `message_complete` has empty
`full_content`, contradicting the claim for units that carry both payloads. -/
theorem orch_c4_counter :
    (Orc.runFull Orc.dualPayloadEnv).events =
      [Orc.Event.thoughtStart, Orc.Event.thoughtContent "思", Orc.Event.thoughtEnd,
       Orc.Event.messageComplete "" []] ∧
    Orc.dualPayloadEnv.chunks = [⟨"思", "答"⟩] ∧
    Orc.Event.contentDelta "答" ∉ (Orc.runFull Orc.dualPayloadEnv).events := by decide

/-- C4 — amended.  For a reasoner run that completes normally, the
`content_delta` events are exactly those of the units whose reasoning payload
is empty and whose answer payload is non-empty, in order, and the
`message_complete` carries the concatenation of exactly those payloads: a
unit with a non-empty reasoning payload has its answer payload dropped. -/
theorem orch_c4_amended (env : Orc.Env)
    (hR : env.modelName = some "deepseek-reasoner")
    (hinit : env.initErr = none)
    (hResp : ∀ r, ∃ resp, env.respond r = Except.ok resp)
    (hstream : env.streamErr = none) :
    ((Orc.runFull env).events.filter Orc.Event.isContentDelta) =
      ((env.chunks.filter (fun c => c.reasoning == "" && c.content != "")).map
        (fun c => Orc.Event.contentDelta c.content)) ∧
    (∃ pre refs, (Orc.runFull env).events = pre ++
      [Orc.Event.messageComplete (Orc.strConcat
        ((env.chunks.filter (fun c => c.reasoning == "" && c.content != "")).map
          (fun c => c.content))) refs]) := by
  have hisR : (env.modelName == some "deepseek-reasoner") = true := by simp [hR]
  rcases Orc.loopRun_ok_cases env hResp env.maxIter 0 env.initialMessages with
    ⟨evs, msgs', heq, hall⟩
  have hCD : evs.filter Orc.Event.isContentDelta = [] :=
    Orc.filter_false_of fun e he => (Orc.roundEv_facts e (hall e he)).2.2.1
  rcases Orc.streamFold_content env.chunks ⟨false, false, false, ""⟩ with ⟨hf, hfull⟩
  constructor
  · cases hsid : env.sessionId <;>
    · simp only [Orc.runFull, hinit, heq, hstream, hsid, hisR]
      simp [List.filter_append, hCD, hf,
        apply_ite (List.filter Orc.Event.isContentDelta), Orc.Event.isContentDelta]
  · cases hsid : env.sessionId <;>
    · simp only [Orc.runFull, hinit, heq, hstream, hsid, hisR]
      rw [hfull, String.empty_append]
      exact ⟨_, _, rfl⟩

/-- C4 — witness for the amended theorem at the dual-payload environment. -/
theorem orch_c4_amended_witness :
    ((Orc.runFull Orc.dualPayloadEnv).events.filter Orc.Event.isContentDelta) =
      ((Orc.dualPayloadEnv.chunks.filter
          (fun c => c.reasoning == "" && c.content != "")).map
        (fun c => Orc.Event.contentDelta c.content)) ∧
    (∃ pre refs, (Orc.runFull Orc.dualPayloadEnv).events = pre ++
      [Orc.Event.messageComplete (Orc.strConcat
        ((Orc.dualPayloadEnv.chunks.filter
            (fun c => c.reasoning == "" && c.content != "")).map
          (fun c => c.content))) refs]) :=
  orch_c4_amended Orc.dualPayloadEnv rfl rfl (fun _ => ⟨⟨[]⟩, rfl⟩) rfl

/-- C5 — confirmed.  For a reasoner run that completes normally, in which at
least one unit carries a non-empty reasoning payload and no unit carries a
non-empty answer payload, exactly one `thought_process_end` is emitted, and
it occurs before the terminating `message_complete`. -/
theorem orch_c5 (env : Orc.Env)
    (hR : env.modelName = some "deepseek-reasoner")
    (hinit : env.initErr = none)
    (hResp : ∀ r, ∃ resp, env.respond r = Except.ok resp)
    (hstream : env.streamErr = none)
    (hsome : env.chunks.any (fun c => c.reasoning != "") = true)
    (hnone : ∀ c ∈ env.chunks, c.content = "") :
    ∃ pre full refs,
      (Orc.runFull env).events = pre ++ [Orc.Event.messageComplete full refs] ∧
      (pre.filter Orc.Event.isThoughtEnd).length = 1 ∧
      ((Orc.runFull env).events.filter Orc.Event.isThoughtEnd).length = 1 := by
  have hisR : (env.modelName == some "deepseek-reasoner") = true := by simp [hR]
  rcases Orc.loopRun_ok_cases env hResp env.maxIter 0 env.initialMessages with
    ⟨evs, msgs', heq, hall⟩
  have hTE : evs.filter Orc.Event.isThoughtEnd = [] :=
    Orc.filter_false_of fun e he => (Orc.roundEv_facts e (hall e he)).2.1
  rcases Orc.streamFold_no_content env.chunks hnone ⟨false, false, false, ""⟩ with
    ⟨h1, h2, h3, h4⟩
  have hclEq : (if (true && (Orc.streamFold true ⟨false, false, false, ""⟩
        env.chunks).1.started &&
        !(Orc.streamFold true ⟨false, false, false, ""⟩ env.chunks).1.ended) = true
      then [Orc.Event.thoughtEnd] else ([] : List Orc.Event)) =
      [Orc.Event.thoughtEnd] := by
    rw [h2, h3]
    simp [hsome]
  cases hsid : env.sessionId <;>
  · simp only [Orc.runFull, hinit, heq, hstream, hsid, hisR, hclEq]
    refine ⟨_, _, _, rfl, ?_, ?_⟩
    · simp [List.filter_append, hTE, h1, Orc.Event.isThoughtEnd]
    · simp [List.filter_append, hTE, h1, Orc.Event.isThoughtEnd]

/-- C5 — witness at the reasoning-only environment. -/
theorem orch_c5_witness :
    ∃ pre full refs,
      (Orc.runFull Orc.reasoningOnlyEnv).events =
        pre ++ [Orc.Event.messageComplete full refs] ∧
      (pre.filter Orc.Event.isThoughtEnd).length = 1 ∧
      ((Orc.runFull Orc.reasoningOnlyEnv).events.filter
        Orc.Event.isThoughtEnd).length = 1 :=
  orch_c5 Orc.reasoningOnlyEnv rfl rfl (fun _ => ⟨⟨[]⟩, rfl⟩) rfl (by decide) (by decide)

/-- C9 — confirmed.  A requested tool call whose name resolves to no
registered tool produces no `ToolMessage` and is skipped: the messages of
the round are exactly those of the same round without the unknown call, so
the remaining calls are processed unchanged and no error surfaces. -/
theorem orch_c9 (tenv : Orc.ToolEnv) (calls1 calls2 : List Orc.ToolCall)
    (bad : Orc.ToolCall) (msgs : List Orc.Message)
    (h : tenv.registry.contains bad.name = false) :
    (∀ q, Orc.runToolCall tenv q bad = none) ∧
    Orc.executeToolCalls tenv (calls1 ++ bad :: calls2) msgs =
      Orc.executeToolCalls tenv (calls1 ++ calls2) msgs := by
  have h2 : bad.name ∉ tenv.registry := by simpa using h
  have hbad : ∀ q, Orc.runToolCall tenv q bad = none := by
    intro q
    simp [Orc.runToolCall, h2]
  refine ⟨hbad, ?_⟩
  simp [Orc.executeToolCalls, List.filterMap_append, List.filterMap_cons, hbad]

/-- C9 — witness: the unknown tool `unknown_tool` between two `web_search`
calls against a registry holding `web_search` and the review tool. -/
theorem orch_c9_witness :
    (∀ q, Orc.runToolCall Orc.sampleToolEnv q ⟨"unknown_tool", "args", "1"⟩ = none) ∧
    Orc.executeToolCalls Orc.sampleToolEnv
        ([⟨"web_search", "q", "0"⟩] ++ ⟨"unknown_tool", "args", "1"⟩ ::
          [⟨"web_search", "q2", "2"⟩]) [] =
      Orc.executeToolCalls Orc.sampleToolEnv
        ([⟨"web_search", "q", "0"⟩] ++ [⟨"web_search", "q2", "2"⟩]) [] :=
  orch_c9 Orc.sampleToolEnv [⟨"web_search", "q", "0"⟩] [⟨"web_search", "q2", "2"⟩]
    ⟨"unknown_tool", "args", "1"⟩ [] (by decide)

namespace Orc

theorem ite_ne_char {P : Prop} [Decidable P] {x y c : Char} (hx : x ≠ c)
    (hy : y ≠ c) : (if P then x else y) ≠ c := by
  split
  · exact hx
  · exact hy

theorem digitChar_ne_nl (m : Nat) : Nat.digitChar m ≠ '\n' := by
  unfold Nat.digitChar
  repeat' refine ite_ne_char (by decide) ?_
  decide

theorem toDigitsCore_ne_nl (b : Nat) : ∀ (fuel n : Nat) (ds : List Char),
    (∀ c ∈ ds, c ≠ '\n') → ∀ c ∈ Nat.toDigitsCore b fuel n ds, c ≠ '\n' := by
  intro fuel
  induction fuel with
  | zero => intro n ds hds; simpa [Nat.toDigitsCore] using hds
  | succ fuel ih =>
    intro n ds hds c hc
    simp only [Nat.toDigitsCore] at hc
    split at hc
    · rcases List.mem_cons.mp hc with rfl | hc
      · exact digitChar_ne_nl _
      · exact hds c hc
    · refine ih (n / b) (Nat.digitChar (n % b) :: ds) ?_ c hc
      intro x hx
      rcases List.mem_cons.mp hx with rfl | hx
      · exact digitChar_ne_nl _
      · exact hds x hx

theorem toString_nat_no_nl (n : Nat) : '\n' ∉ (toString n).toList := by
  intro hmem
  exact toDigitsCore_ne_nl 10 (n + 1) n [] (by simp) '\n' hmem rfl

theorem intercalate_go_no_nl : ∀ (rs : List String) (acc : String),
    '\n' ∉ acc.toList → (∀ r ∈ rs, '\n' ∉ r.toList) →
    '\n' ∉ (String.intercalate.go acc ", " rs).toList := by
  intro rs
  induction rs with
  | nil => intro acc hacc _; simpa [String.intercalate.go] using hacc
  | cons a as ih =>
    intro acc hacc hrs
    simp only [String.intercalate.go]
    refine ih (acc ++ ", " ++ a) ?_ (fun r hr => hrs r (List.mem_cons_of_mem a hr))
    simp only [String.toList, String.data_append]
    intro hmem
    rcases List.mem_append.mp hmem with hm | hm
    · rcases List.mem_append.mp hm with hm | hm
      · exact hacc hm
      · simp at hm
    · exact hrs a (List.mem_cons_self a as) hm

theorem intercalate_no_nl (rs : List String) (h : ∀ r ∈ rs, '\n' ∉ r.toList) :
    '\n' ∉ (String.intercalate ", " rs).toList := by
  cases rs with
  | nil =>
    simp [String.intercalate]
  | cons a as =>
    simp only [String.intercalate]
    exact intercalate_go_no_nl as a (h a (List.mem_cons_self a as))
      (fun r hr => h r (List.mem_cons_of_mem a hr))

theorem splitNL_append_line (l rest : List Char) (h : '\n' ∉ l) :
    splitNL (l ++ '\n' :: rest) = l :: splitNL rest := by
  induction l with
  | nil => simp [splitNL]
  | cons c cl ih =>
    have hc : ¬(c = '\n') := fun hh => h (hh ▸ List.mem_cons_self c cl)
    have h' : '\n' ∉ cl := fun hh => h (List.mem_cons_of_mem c hh)
    rw [List.cons_append]
    simp only [splitNL, if_neg hc, ih h']

theorem splitNL_lineJoin : ∀ (ls : List (List Char)) (rest : List Char),
    (∀ l ∈ ls, '\n' ∉ l) →
    splitNL (lineJoin ls ++ rest) = ls ++ splitNL rest := by
  intro ls
  induction ls with
  | nil => intro rest _; simp [lineJoin]
  | cons l ls ih =>
    intro rest h
    have h0 : '\n' ∉ l := h l (List.mem_cons_self l ls)
    have h' : ∀ x ∈ ls, '\n' ∉ x := fun x hx => h x (List.mem_cons_of_mem l hx)
    simp only [lineJoin, List.append_assoc, List.cons_append]
    rw [splitNL_append_line l _ h0, ih rest h']

theorem headerLines_lineJoin (ls : List (List Char)) (rest : List Char)
    (h : ∀ l ∈ ls, '\n' ∉ l) :
    headerLines (lineJoin ls ++ rest) =
      ls.filter (fun l => l.head? == some '[') ++ headerLines rest := by
  unfold headerLines
  rw [splitNL_lineJoin ls rest h, List.filter_append]

theorem entryBlock_toList (i : Nat) (e : ReviewTool.REntry) :
    (entryBlock i e).toList = lineJoin (blockLines i e) := by
  have h1 : ("[" : String).data = ['['] := rfl
  have h2 : ("] " : String).data = [']', ' '] := rfl
  have h3 : ("\n" : String).data = ['\n'] := rfl
  have h4 : ("📝 " : String).data = ['📝', ' '] := rfl
  have h5 : ("🔗 " : String).data = ['🔗', ' '] := rfl
  have h6 : ("" : String).data = [] := rfl
  by_cases hu : e.url = "" <;> by_cases hr : e.reasons = [] <;>
    simp [entryBlock, blockLines, lineJoin, hu, hr, String.toList,
      String.data_append, h1, h2, h3, h4, h5, h6, List.append_assoc]

theorem blockLines_no_nl (i : Nat) (e : ReviewTool.REntry) (he : cleanEntry e) :
    ∀ l ∈ blockLines i e, '\n' ∉ l := by
  obtain ⟨ht, hs, hu, hsrc, hrs⟩ := he
  have hts := toString_nat_no_nl i
  have hint := intercalate_no_nl e.reasons hrs
  have Hhdr : '\n' ∉ ('[' :: ((toString i).toList ++ ']' :: ' ' :: e.title.toList)) := by
    intro hmem
    rcases List.mem_cons.mp hmem with h | h
    · exact absurd h (by decide)
    rcases List.mem_append.mp h with h | h
    · exact hts h
    rcases List.mem_cons.mp h with h | h
    · exact absurd h (by decide)
    rcases List.mem_cons.mp h with h | h
    · exact absurd h (by decide)
    exact ht h
  have Hsnip : '\n' ∉ ('📝' :: ' ' :: e.snippet.toList) := by
    intro hmem
    rcases List.mem_cons.mp hmem with h | h
    · exact absurd h (by decide)
    rcases List.mem_cons.mp h with h | h
    · exact absurd h (by decide)
    exact hs h
  have Hurl : '\n' ∉ ('🔗' :: ' ' :: e.url.toList) := by
    intro hmem
    rcases List.mem_cons.mp hmem with h | h
    · exact absurd h (by decide)
    rcases List.mem_cons.mp h with h | h
    · exact absurd h (by decide)
    exact hu h
  have Hsrc : '\n' ∉ (("📍 来源: " : String).toList ++ e.source.toList) := by
    intro hmem
    rcases List.mem_append.mp hmem with h | h
    · exact absurd h (by decide)
    exact hsrc h
  have Hreas : '\n' ∉ (("💡 推荐理由: " : String).toList ++
      (String.intercalate ", " e.reasons).toList) := by
    intro hmem
    rcases List.mem_append.mp hmem with h | h
    · exact absurd h (by decide)
    exact hint h
  have Hnil : '\n' ∉ ([] : List Char) := by simp
  intro l hl
  by_cases hurl : e.url = ""
  · by_cases hre : e.reasons = []
    · simp [blockLines, hurl, hre] at hl
      rcases hl with rfl | rfl | rfl | rfl
      exacts [Hhdr, Hsnip, Hsrc, Hnil]
    · simp [blockLines, hurl, hre] at hl
      rcases hl with rfl | rfl | rfl | rfl | rfl
      exacts [Hhdr, Hsnip, Hsrc, Hreas, Hnil]
  · by_cases hre : e.reasons = []
    · simp [blockLines, hurl, hre] at hl
      rcases hl with rfl | rfl | rfl | rfl | rfl
      exacts [Hhdr, Hsnip, Hurl, Hsrc, Hnil]
    · simp [blockLines, hurl, hre] at hl
      rcases hl with rfl | rfl | rfl | rfl | rfl | rfl
      exacts [Hhdr, Hsnip, Hurl, Hsrc, Hreas, Hnil]

theorem headerLines_block (i : Nat) (e : ReviewTool.REntry) (rest : List Char)
    (he : cleanEntry e) :
    headerLines ((entryBlock i e).toList ++ rest) =
      ('[' :: ((toString i).toList ++ ']' :: ' ' :: e.title.toList)) ::
        headerLines rest := by
  rw [entryBlock_toList, headerLines_lineJoin _ _ (blockLines_no_nl i e he)]
  have hh : ((('[' :: ((toString i).toList ++ ']' :: ' ' :: e.title.toList)) :
      List Char).head? == some '[') = true := rfl
  have hp1 : ((('📝' :: ' ' :: e.snippet.toList) : List Char).head? == some '[') =
      false := rfl
  have hp2 : ((('🔗' :: ' ' :: e.url.toList) : List Char).head? == some '[') =
      false := rfl
  have hp3 : (((("📍 来源: " : String).toList ++ e.source.toList) :
      List Char).head? == some '[') = false := rfl
  have hp4 : (((("💡 推荐理由: " : String).toList ++
      (String.intercalate ", " e.reasons).toList) : List Char).head? == some '[') =
      false := rfl
  have hp5 : ((([] : List Char)).head? == some '[') = false := rfl
  by_cases hurl : e.url = "" <;> by_cases hre : e.reasons = [] <;>
    simp [blockLines, hurl, hre, List.filter_cons, List.filter_append, hh, hp1,
      hp2, hp3, hp4, hp5]

theorem headerLines_renderFrom : ∀ (es : List ReviewTool.REntry) (i : Nat),
    (∀ e ∈ es, cleanEntry e) →
    headerLines ((renderFrom i es).toList) =
      ((List.range' i es.length).zip es).map
        (fun p => '[' :: ((toString p.1).toList ++ ']' :: ' ' :: p.2.title.toList)) := by
  intro es
  induction es with
  | nil =>
    intro i _
    have h0 : (renderFrom i []).toList = [] := rfl
    rw [h0]
    rfl
  | cons e es ih =>
    intro i h
    have hbl : (renderFrom i (e :: es)).toList =
        (entryBlock i e).toList ++ (renderFrom (i + 1) es).toList := by
      simp [renderFrom, String.toList, String.data_append]
    rw [hbl, headerLines_block i e _ (h e (List.mem_cons_self e es)),
      ih (i + 1) (fun x hx => h x (List.mem_cons_of_mem e hx))]
    simp [List.range'_succ]

theorem padLoop_length_le : ∀ (l acc : List ReviewTool.REntry) (seen : List Nat),
    acc.length ≤ 10 → (padLoop acc seen l).length ≤ 10 := by
  intro l
  induction l with
  | nil => intro acc seen h; simpa [padLoop] using h
  | cons e rest ih =>
    intro acc seen h
    by_cases h10 : 10 ≤ acc.length
    · simpa [padLoop, h10] using h
    · by_cases hseen : e.index ∈ seen
      · simpa [padLoop, h10, hseen] using ih acc seen h
      · simp only [padLoop, h10, hseen, if_false]
        refine ih (acc ++ [e]) (seen ++ [e.index]) ?_
        simp only [List.length_append, List.length_cons, List.length_nil]
        omega

theorem padLoop_length_ge : ∀ (l acc : List ReviewTool.REntry) (seen : List Nat),
    acc.length ≤ (padLoop acc seen l).length := by
  intro l
  induction l with
  | nil => intro acc seen; simp [padLoop]
  | cons e rest ih =>
    intro acc seen
    by_cases h10 : 10 ≤ acc.length
    · simp [padLoop, h10]
    · by_cases hseen : e.index ∈ seen
      · simpa [padLoop, h10, hseen] using ih acc seen
      · simp only [padLoop, h10, hseen, if_false]
        refine le_trans ?_ (ih (acc ++ [e]) (seen ++ [e.index]))
        simp

theorem padLoop_mem : ∀ (l acc : List ReviewTool.REntry) (seen : List Nat)
    (a : ReviewTool.REntry), a ∈ padLoop acc seen l → a ∈ acc ∨ a ∈ l := by
  intro l
  induction l with
  | nil => intro acc seen a ha; left; simpa [padLoop] using ha
  | cons e rest ih =>
    intro acc seen a ha
    by_cases h10 : 10 ≤ acc.length
    · left; simpa [padLoop, h10] using ha
    · by_cases hseen : e.index ∈ seen
      · simp only [padLoop, h10, hseen, if_false, if_true] at ha
        rcases ih acc seen a ha with h | h
        · exact Or.inl h
        · exact Or.inr (List.mem_cons_of_mem e h)
      · simp only [padLoop, h10, hseen, if_false] at ha
        rcases ih (acc ++ [e]) (seen ++ [e.index]) a ha with h | h
        · rcases List.mem_append.mp h with h | h
          · exact Or.inl h
          · simp at h
            exact Or.inr (h ▸ List.mem_cons_self e rest)
        · exact Or.inr (List.mem_cons_of_mem e h)

theorem buildFinal_length_le (o : ReviewOutcome) : (buildFinal o).length ≤ 10 := by
  have hp : ((o.recommendations.take 10).filterMap (entryMapGet o.entries)).length ≤ 10 := by
    refine le_trans (List.length_filterMap_le _ _) ?_
    rw [List.length_take]
    exact Nat.min_le_left _ _
  unfold buildFinal
  dsimp only
  split
  · next h => exact padLoop_length_le _ _ _ (Nat.le_of_lt h)
  · next h => exact hp

theorem buildFinal_ne_nil (o : ReviewOutcome) (hent : o.entries ≠ []) :
    buildFinal o ≠ [] := by
  have hs : ReviewTool.sortFinalDesc o.entries ≠ [] := by
    intro hnil
    have hlen := (ReviewTool.sortFinalDesc_perm o.entries).length_eq
    rw [hnil] at hlen
    exact hent (List.length_eq_zero.mp hlen.symm)
  obtain ⟨x, xs, hxs⟩ := List.exists_cons_of_ne_nil hs
  unfold buildFinal
  dsimp only
  split
  · next h =>
    by_cases hp : ((o.recommendations.take 10).filterMap (entryMapGet o.entries)) = []
    · rw [hp, hxs]
      intro hnil
      simp only [padLoop, List.map_nil, List.length_nil, List.not_mem_nil, if_false,
        List.nil_append, show ¬(10 ≤ 0) by decide] at hnil
      have hge := padLoop_length_ge xs [x] [x.index]
      rw [hnil] at hge
      simp at hge
    · intro hnil
      have h1 := padLoop_length_ge (ReviewTool.sortFinalDesc o.entries)
        ((o.recommendations.take 10).filterMap (entryMapGet o.entries))
        (((o.recommendations.take 10).filterMap (entryMapGet o.entries)).map
          (fun e => e.index))
      rw [hnil] at h1
      simp only [List.length_nil, Nat.le_zero, List.length_eq_zero] at h1
      exact hp h1
  · next h =>
    intro hnil
    rw [hnil] at h
    simp at h

theorem buildFinal_mem (o : ReviewOutcome) : ∀ a ∈ buildFinal o, a ∈ o.entries := by
  have hphase : ∀ b ∈ (o.recommendations.take 10).filterMap (entryMapGet o.entries),
      b ∈ o.entries := by
    intro b hb
    rcases List.mem_filterMap.mp hb with ⟨i, _, hsome⟩
    exact List.mem_reverse.mp (List.mem_of_find?_eq_some hsome)
  intro a ha
  unfold buildFinal at ha
  dsimp only at ha
  split at ha
  · rcases padLoop_mem _ _ _ a ha with h | h
    · exact hphase a h
    · exact (ReviewTool.sortFinalDesc_perm o.entries).mem_iff.mp h
  · exact hphase a ha

end Orc

/-- C10 — confirmed.  Whenever the review-based rewrite of a search tool's
output succeeds (non-empty recommendations and entries), the rewritten block
holds at most ten entries and its numbered headers are exactly
`[1] …`, `[2] …`, … in selection order — consecutive indices from 1, not the
entries' original indices.  (Entry fields are assumed newline-free, as the
parsed search output guarantees.) -/
theorem orch_c10 (o : Orc.ReviewOutcome) (hrec : o.recommendations ≠ [])
    (hent : o.entries ≠ []) (hclean : ∀ e ∈ o.entries, Orc.cleanEntry e) :
    (Orc.buildFinal o).length ≤ 10 ∧ Orc.buildFinal o ≠ [] ∧
    Orc.headerLines ((Orc.renderFiltered (Orc.buildFinal o)).toList) =
      ((List.range' 1 (Orc.buildFinal o).length).zip (Orc.buildFinal o)).map
        (fun p => '[' :: ((toString p.1).toList ++ ']' :: ' ' :: p.2.title.toList)) := by
  refine ⟨Orc.buildFinal_length_le o, Orc.buildFinal_ne_nil o hent, ?_⟩
  have hcl : ∀ e ∈ Orc.buildFinal o, Orc.cleanEntry e :=
    fun e he => hclean e (Orc.buildFinal_mem o e he)
  have hlit : ("🔍 经审查筛选后的搜索结果：\n\n" : String).data =
      ("🔍 经审查筛选后的搜索结果：" : String).data ++ ['\n', '\n'] := rfl
  have hpre : (Orc.renderFiltered (Orc.buildFinal o)).toList =
      Orc.lineJoin [("🔍 经审查筛选后的搜索结果：" : String).toList, []] ++
        (Orc.renderFrom 1 (Orc.buildFinal o)).toList := by
    simp [Orc.renderFiltered, String.toList, String.data_append, Orc.lineJoin, hlit,
      List.append_assoc]
  have hnn : ∀ l ∈ [("🔍 经审查筛选后的搜索结果：" : String).toList, ([] : List Char)],
      '\n' ∉ l := by
    intro l hl
    rcases List.mem_cons.mp hl with rfl | hl
    · decide
    · simp at hl
      simp [hl]
  rw [hpre, Orc.headerLines_lineJoin _ _ hnn,
    Orc.headerLines_renderFrom (Orc.buildFinal o) 1 hcl]
  have hf1 : ((("🔍 经审查筛选后的搜索结果：" : String).toList).head? == some '[') =
      false := rfl
  have hf2 : ((([] : List Char)).head? == some '[') = false := rfl
  simp [List.filter_cons, hf1, hf2]

/-- C10 — witness: two entries with original indices 1 and 2, recommendation
list `[2]`; the rewritten block renumbers the selected entries `[1]`, `[2]`
in selection order. -/
theorem orch_c10_witness :
    (Orc.buildFinal ⟨[2], [⟨1, "甲", "乙", "", "源", 1, 1, 1, []⟩,
        ⟨2, "丙", "丁", "u", "源2", 0, 0, 0, ["理由"]⟩]⟩).length ≤ 10 ∧
    Orc.buildFinal ⟨[2], [⟨1, "甲", "乙", "", "源", 1, 1, 1, []⟩,
        ⟨2, "丙", "丁", "u", "源2", 0, 0, 0, ["理由"]⟩]⟩ ≠ [] ∧
    Orc.headerLines ((Orc.renderFiltered (Orc.buildFinal ⟨[2],
        [⟨1, "甲", "乙", "", "源", 1, 1, 1, []⟩,
         ⟨2, "丙", "丁", "u", "源2", 0, 0, 0, ["理由"]⟩]⟩)).toList) =
      ((List.range' 1 (Orc.buildFinal ⟨[2], [⟨1, "甲", "乙", "", "源", 1, 1, 1, []⟩,
          ⟨2, "丙", "丁", "u", "源2", 0, 0, 0, ["理由"]⟩]⟩).length).zip
        (Orc.buildFinal ⟨[2], [⟨1, "甲", "乙", "", "源", 1, 1, 1, []⟩,
          ⟨2, "丙", "丁", "u", "源2", 0, 0, 0, ["理由"]⟩]⟩)).map
        (fun p => '[' :: ((toString p.1).toList ++ ']' :: ' ' :: p.2.title.toList)) :=
  orch_c10 ⟨[2], [⟨1, "甲", "乙", "", "源", 1, 1, 1, []⟩,
      ⟨2, "丙", "丁", "u", "源2", 0, 0, 0, ["理由"]⟩]⟩
    (by decide) (by decide) (by decide)
